import Mathlib

/-!
Verification of the YT-Sync job-orchestration core (src/yt_sync.py).

The Python source is shallowly embedded: pure helpers become Lean functions,
the two regular expressions `_RE_PROGRESS` and `_RE_DEST` are embedded via a
small backtracking matcher over an atom/group syntax mirroring the concrete
patterns, and the stateful job runner `_run_job` / worker loop `_worker`
become explicit state-passing functions over an association-list job table.
Catalog I/O (`load_data`/`save_data`) is modelled by an explicit disk state
that can be missing, malformed (existing file that is not valid JSON), or
valid.  Timestamps (`time.time()`) are abstract naturals supplied by the
environment.  Python `float` applied to a percentage capture is modelled as
an optional rational (`none` models the `ValueError` raise).
-/

/-- Whitespace characters matched by the regular-expression class backslash-s
in Python (ASCII range, which covers the tool's output). -/
def isSpaceC (c : Char) : Bool :=
  c = ' ' || c = '\t' || c = '\n' || c = '\r' || c = '\x0b' || c = '\x0c'

/-- Test whether `needle` is a prefix of `hay` (character lists). -/
def prefixAt : List Char → List Char → Bool
  | [], _ => true
  | _ :: _, [] => false
  | n :: ns, h :: hs => n == h && prefixAt ns hs

/-- Test whether `needle` occurs as a contiguous substring of `hay`
(character-list worker for `containsSub`). -/
def containsAux (needle : List Char) : List Char → Bool
  | [] => prefixAt needle []
  | c :: hs => prefixAt needle (c :: hs) || containsAux needle hs

/-- Python's `needle in hay` substring test on strings. -/
def containsSub (hay needle : String) : Bool :=
  containsAux needle.data hay.data

/-- Python's `str.lower()` (ASCII behaviour suffices for the tool output). -/
def pyLower (s : String) : String :=
  String.mk (s.data.map Char.toLower)

/-- Python's `str.rstrip()` with no argument: drop trailing whitespace. -/
def rstripStr (s : String) : String :=
  String.mk ((s.data.reverse.dropWhile isSpaceC).reverse)

/-- Python's `str.strip()` with no argument: drop whitespace at both ends. -/
def pyStrip (s : String) : String :=
  String.mk (((s.data.dropWhile isSpaceC).reverse.dropWhile isSpaceC).reverse)

/-- Python's `str.strip(c)` for a single character argument. -/
def pyStripChar (c : Char) (s : String) : String :=
  String.mk (((s.data.dropWhile (· == c)).reverse.dropWhile (· == c)).reverse)

/-- One quantified or literal piece of a regular expression.  The two patterns
in the source only quantify single-character classes, so greedy `+`, `*`, `?`
over classes plus literal strings (and a literal alternation) are exactly the
constructs needed. -/
inductive Atom where
  | lit (s : String)
  | alts (ss : List String)
  | one (p : Char → Bool)
  | plus (p : Char → Bool)
  | star (p : Char → Bool)
  | opt (p : Char → Bool)

/-- A regular expression is a sequence of atoms and capture groups (a group is
itself a sequence of atoms). -/
inductive Item where
  | atom (a : Atom)
  | group (as : List Atom)

/-- Match a literal at the head of the input; at most one way to do so. -/
def litMatch (s : String) (cs : List Char) : List (List Char) :=
  if prefixAt s.data cs then [cs.drop s.data.length] else []

/-- All ways one atom can match a prefix of the input, as the list of
remainders in backtracking-preference order (greedy: longest first). -/
def matchAtom : Atom → List Char → List (List Char)
  | .lit s, cs => litMatch s cs
  | .alts ss, cs => ss.flatMap (fun s => litMatch s cs)
  | .one _, [] => []
  | .one p, c :: cs => if p c then [cs] else []
  | .plus p, cs =>
      let n := (cs.takeWhile p).length
      (List.range n).map (fun k => cs.drop (n - k))
  | .star p, cs =>
      let n := (cs.takeWhile p).length
      (List.range (n + 1)).map (fun k => cs.drop (n - k))
  | .opt _, [] => [[]]
  | .opt p, c :: cs => if p c then [cs, c :: cs] else [c :: cs]

/-- All ways a sequence of atoms can match a prefix of the input, remainders
in backtracking-preference order. -/
def matchAtoms : List Atom → List Char → List (List Char)
  | [], cs => [cs]
  | a :: as, cs => (matchAtom a cs).flatMap (matchAtoms as)

/-- All ways a whole pattern can match a prefix of the input, paired with the
captured group texts in order of appearance. -/
def matchItems : List Item → List Char → List (List Char × List String)
  | [], cs => [(cs, [])]
  | .atom a :: rest, cs => (matchAtom a cs).flatMap (fun r => matchItems rest r)
  | .group as :: rest, cs =>
      (matchAtoms as cs).flatMap (fun r =>
        (matchItems rest r).map (fun pr =>
          (pr.1, String.mk (cs.take (cs.length - r.length)) :: pr.2)))

/-- Scan for the leftmost start position admitting a match and return the
captures of the backtracking-preferred match there, as `re.search` does. -/
def searchFrom (items : List Item) : List Char → Option (List String)
  | [] => ((matchItems items []).head?).map (·.2)
  | c :: cs =>
      match (matchItems items (c :: cs)).head? with
      | some pr => some pr.2
      | none => searchFrom items cs

/-- Python's `pattern.search(s)` returning the list of captured groups. -/
def reSearch (items : List Item) (s : String) : Option (List String) :=
  searchFrom items s.data

/-- Character class `[\d.]`. -/
def isDigitDot (c : Char) : Bool := c.isDigit || c = '.'

/-- Character class `\S`. -/
def isNonSpace (c : Char) : Bool := !(isSpaceC c)

/-- Character class `[\d:]`. -/
def isDigitColon (c : Char) : Bool := c.isDigit || c = ':'

/-- Character class `[^"\n]`. -/
def isDestChar (c : Char) : Bool := !(c = '"' || c = '\n')

/-- The compiled `_RE_PROGRESS` pattern from the source:
the progress line shape with four capture groups
(percentage, size, rate, ETA). -/
def progressRE : List Item := [
  .atom (.lit "[download]"),
  .atom (.plus isSpaceC),
  .group [.plus isDigitDot],
  .atom (.lit "%"),
  .atom (.plus isSpaceC),
  .atom (.lit "of"),
  .atom (.plus isSpaceC),
  .atom (.opt (fun c => c = '~')),
  .atom (.star isSpaceC),
  .group [.plus isDigitDot, .star isSpaceC, .plus isNonSpace],
  .atom (.plus isSpaceC),
  .atom (.lit "at"),
  .atom (.plus isSpaceC),
  .group [.plus isDigitDot, .star isSpaceC, .plus isNonSpace, .lit "/s"],
  .atom (.plus isSpaceC),
  .atom (.lit "ETA"),
  .atom (.plus isSpaceC),
  .group [.plus isDigitColon]]

/-- The compiled `_RE_DEST` pattern from the source: a destination or
format-merge announcement capturing the output path. -/
def destRE : List Item := [
  .atom (.alts ["Destination:", "Merging formats into"]),
  .atom (.plus isSpaceC),
  .atom (.opt (fun c => c = '"')),
  .group [.plus isDestChar],
  .atom (.opt (fun c => c = '"'))]

/-- Numeric value of a digit string (most significant first). -/
def digitsVal (cs : List Char) : Nat :=
  cs.foldl (fun a c => a * 10 + (c.toNat - 48)) 0

/-- Python's `float()` applied to a string drawn from the class `[\d.]+`:
it succeeds exactly when the string has at least one digit and at most one
dot, and the result is modelled as an exact rational.  `none` models the
`ValueError` raise. -/
def pyFloat (s : String) : Option Rat :=
  let cs := s.data
  if cs.all isDigitDot = true ∧ cs.any Char.isDigit = true ∧ cs.count '.' ≤ 1 then
    let ip := cs.takeWhile (fun c => c != '.')
    let fp := (cs.dropWhile (fun c => c != '.')).drop 1
    some ((digitsVal ip : Rat) + (digitsVal fp : Rat) / ((10 : Rat) ^ fp.length))
  else none

/-- The structured progress signal returned by `parse_line`. -/
structure Progress where
  pct : Rat
  size : String
  speed : String
  eta : String
deriving DecidableEq, Repr

/-- `parse_line` from the source: search the progress pattern; on a match,
convert the percentage with `float` (which can raise, modelled by `.error`)
and strip the other captures; otherwise report no signal. -/
def parse_line (line : String) : Except String (Option Progress) :=
  match reSearch progressRE line with
  | some [g1, g2, g3, g4] =>
      match pyFloat g1 with
      | some v => .ok (some ⟨v, pyStrip g2, pyStrip g3, pyStrip g4⟩)
      | none => .error ("could not convert string to float: " ++ g1)
  | _ => .ok none


/-! ### Catalog Store (durable state) -/

/-- The `settings` mapping of the durable catalog. -/
structure Settings where
  download_dir : String
  threads : Nat
deriving DecidableEq, Repr

/-- A Video record of the catalog.  `quality`/`audio_only` are `none` when the
keys are absent from the record (they are added on reconciliation and popped
on file deletion). -/
structure Video where
  id : String
  title : String
  uploader : String
  duration : Option Nat
  thumbnail : String
  url : String
  downloaded : Bool
  file_path : Option String
  quality : Option String
  audio_only : Option Bool
deriving DecidableEq, Repr

/-- A Playlist record of the catalog. -/
structure Playlist where
  id : String
  url : String
  title : String
  videos : List Video
  added : Nat
  synced : Nat
deriving DecidableEq, Repr

/-- The durable catalog: the `playlists` mapping (insertion-ordered, keyed by
playlist id) plus settings. -/
structure Catalog where
  playlists : List (String × Playlist)
  settings : Settings
deriving DecidableEq, Repr

/-- Defaults written by `load_data` when the data file does not exist. -/
def defaultSettings : Settings :=
  { download_dir := "YTSync/downloads", threads := 3 }

/-- The empty catalog `load_data` produces for a missing data file. -/
def emptyCatalog : Catalog :=
  { playlists := [], settings := defaultSettings }

/-- State of the durable data file: absent, present but not valid JSON, or
present and valid. -/
inductive DiskState where
  | missing
  | malformed
  | valid (c : Catalog)

/-- `load_data` from the source: a missing file yields the empty catalog with
default settings; an existing file is fed to `json.load`, which raises on
malformed content (there is no try/except around it). -/
def load_data : DiskState → Except String Catalog
  | .missing => .ok emptyCatalog
  | .malformed => .error "json.decoder.JSONDecodeError: Expecting value"
  | .valid c => .ok c

/-- Dictionary lookup in the `playlists` mapping (`data["playlists"].get`). -/
def lookupPl : List (String × Playlist) → String → Option Playlist
  | [], _ => none
  | e :: rest, k => if e.1 = k then some e.2 else lookupPl rest k

/-- Replace the entry for an existing key of the `playlists` mapping. -/
def setPl : List (String × Playlist) → String → Playlist → List (String × Playlist)
  | [], _, _ => []
  | e :: rest, k, p => if e.1 = k then (k, p) :: rest else e :: setPl rest k p

/-- One entry of the flat-playlist JSON produced by the metadata fetch;
optional fields model absent keys. -/
structure Entry where
  id : Option String
  title : Option String
  uploader : Option String
  duration : Option Nat
  thumbnail : Option String
deriving DecidableEq, Repr

/-- The Video record `fetch_playlist_info` builds for one entry: defaults for
missing fields, `downloaded=False`, `file_path=None`. -/
def videoOfEntry (e : Entry) : Video :=
  { id := e.id.getD "", title := e.title.getD "Unknown",
    uploader := e.uploader.getD "", duration := e.duration,
    thumbnail := e.thumbnail.getD "",
    url := "https://www.youtube.com/watch?v=" ++ e.id.getD "",
    downloaded := false, file_path := none,
    quality := none, audio_only := none }

/-- The video list `fetch_playlist_info` returns: falsy (absent) entries are
skipped, the rest become fresh Video records. -/
def fetchVideos (entries : List (Option Entry)) : List Video :=
  entries.flatMap (fun o => match o with | some e => [videoOfEntry e] | none => [])

/-- Python truthiness of the `file_path` value (`v.get("file_path")`):
false for `None` and for the empty string. -/
def truthyPath : Option String → Bool
  | none => false
  | some s => s != ""

/-- Per-video effect of the delete-file endpoint: a selected video with a
truthy `file_path` is reset (`downloaded=False`, `file_path=None`, the
quality/audio keys popped); other videos are untouched. -/
def deleteFileVideo (vids : List String) (v : Video) : Video :=
  if v.id ∈ vids ∧ truthyPath v.file_path = true then
    { v with downloaded := false, file_path := none,
             quality := none, audio_only := none }
  else v

/-- Catalog effect of `POST /api/video/delete-file` (the `data_lock` block):
look up the playlist and reset every selected video with a truthy path. -/
def deleteFiles (c : Catalog) (plid : String) (vids : List String) : Catalog :=
  match lookupPl c.playlists plid with
  | none => c
  | some pl =>
      let pl2 := { pl with videos := pl.videos.map (deleteFileVideo vids) }
      { c with playlists := setPl c.playlists plid pl2 }

/-- The reconciliation loop on job success: the first video whose id matches
gets `downloaded=True`, `file_path`, `quality`, `audio_only`, then `break`. -/
def reconcileVideos (vid : String) (file : Option String) (q : String) (ao : Bool) :
    List Video → List Video
  | [] => []
  | v :: rest =>
      if v.id = vid then
        { v with downloaded := true, file_path := file,
                 quality := some q, audio_only := some ao } :: rest
      else v :: reconcileVideos vid file q ao rest

/-- Catalog effect of the success reconciliation in `_run_job`: update the
matching video of the matching playlist (the caller checks the playlist
exists before saving). -/
def reconcileCatalog (c : Catalog) (plid vid : String) (file : Option String)
    (q : String) (ao : Bool) : Catalog :=
  match lookupPl c.playlists plid with
  | none => c
  | some pl =>
      let pl2 := { pl with videos := reconcileVideos vid file q ao pl.videos }
      { c with playlists := setPl c.playlists plid pl2 }

/-- First video with the given id (dictionary-order search). -/
def findVideo : List Video → String → Option Video
  | [], _ => none
  | v :: rest, k => if v.id = k then some v else findVideo rest k

/-- The spec's per-video invariant: `downloaded == true` iff `file_path` is
non-null. -/
def VideoInv (v : Video) : Prop := v.downloaded = true ↔ v.file_path ≠ none

/-- The invariant over a whole catalog. -/
def CatalogInv (c : Catalog) : Prop :=
  ∀ e ∈ c.playlists, ∀ v ∈ e.2.videos, VideoInv v

instance (v : Video) : Decidable (VideoInv v) := by
  unfold VideoInv; infer_instance

instance (c : Catalog) : Decidable (CatalogInv c) := by
  unfold CatalogInv; infer_instance

/-! ### Job Record and Table -/

/-- The coarse job lifecycle status. -/
inductive Status where
  | queued
  | running
  | done
  | error
deriving DecidableEq, Repr

/-- One Job record, with the fields created by `add_job`. -/
structure Job where
  id : String
  playlist_id : String
  video_id : String
  title : String
  quality : String
  audio_only : Bool
  status : Status
  queue_pos : Nat
  progress : Rat
  speed : String
  eta : String
  size : String
  phase : String
  log : List String
  started : Option Nat
  finished : Option Nat
  file : Option String
  error : Option String
deriving DecidableEq, Repr

/-- The in-memory job registry: an insertion-ordered association list, the
shallow embedding of the `jobs` dict. -/
abbrev Table := List (String × Job)

/-- Dictionary lookup `jobs.get(job_id)` / `jobs[job_id]`. -/
def lookupJob : Table → String → Option Job
  | [], _ => none
  | e :: rest, k => if e.1 = k then some e.2 else lookupJob rest k

/-- Replace the record stored under an existing key (`jobs[job_id] = ...`
for a key already present). -/
def setJob : Table → String → Job → Table
  | [], _, _ => []
  | e :: rest, k, j => if e.1 = k then (k, j) :: rest else e :: setJob rest k j

/-- Worker of `_update_queue_positions`: walk the table in insertion order,
assigning `pos, pos+1, ...` to the still-queued jobs. -/
def uqpGo (pos : Nat) : Table → Table
  | [] => []
  | e :: rest =>
      if e.2.status = .queued then
        (e.1, { e.2 with queue_pos := pos }) :: uqpGo (pos + 1) rest
      else e :: uqpGo pos rest

/-- `_update_queue_positions` from the source (counter starts at 1). -/
def updateQueuePositions (t : Table) : Table := uqpGo 1 t

/-- The fresh record `add_job` creates. -/
def mkJob (jid plid vid title q : String) (ao : Bool) : Job :=
  { id := jid, playlist_id := plid, video_id := vid, title := title,
    quality := q, audio_only := ao, status := .queued, queue_pos := 0,
    progress := 0, speed := "", eta := "", size := "", phase := "queued",
    log := [], started := none, finished := none, file := none, error := none }

/-- `add_job` from the source: insert the fresh record at the end of the dict,
then recompute queue positions (one `jobs_lock` block). -/
def addJob (t : Table) (jid plid vid title q : String) (ao : Bool) : Table :=
  updateQueuePositions (t ++ [(jid, mkJob jid plid vid title q ao)])

/-- `POST /api/jobs/clear`: delete every job whose status is done or error. -/
def clearJobs : Table → Table
  | [] => []
  | e :: rest =>
      if e.2.status = .done ∨ e.2.status = .error then clearJobs rest
      else e :: clearJobs rest

/-- Queue positions of the still-queued jobs, in table order. -/
def queuedPositions : Table → List Nat
  | [] => []
  | e :: rest =>
      if e.2.status = .queued then e.2.queue_pos :: queuedPositions rest
      else queuedPositions rest

/-- Number of still-queued jobs. -/
def countQ : Table → Nat
  | [] => 0
  | e :: rest => if e.2.status = .queued then countQ rest + 1 else countQ rest

/-- The contiguous run `p, p+1, ..., p+n-1`. -/
def contigFrom : Nat → Nat → List Nat
  | _, 0 => []
  | p, n + 1 => p :: contigFrom (p + 1) n

/-- The spec's queue-position property: positions of the queued jobs form the
contiguous sequence `1, 2, ..., k`. -/
def queuedContiguous (t : Table) : Prop :=
  queuedPositions t = contigFrom 1 (queuedPositions t).length

/-- Keys are pairwise distinct (always true of the embedded dict). -/
def nodupKeys : Table → Prop
  | [] => True
  | e :: rest => lookupJob rest e.1 = none ∧ nodupKeys rest

/-! ### Job Runner -/

/-- The bounded rolling-log append (`j["log"].append(line)` followed by the
cap to the last 60 entries). -/
def lastN (n : Nat) (l : List String) : List String :=
  (l.reverse.take n).reverse

/-- Append one line to the rolling log, dropping the oldest entries beyond
60 (`if len(j["log"]) > 60: j["log"] = j["log"][-60:]`). -/
def appendLog (log : List String) (line : String) : List String :=
  let l := log ++ [line]
  if l.length > 60 then lastN 60 l else l

/-- The log-append step of the per-line block in `_run_job`. -/
def logUpdate (j : Job) (line : String) : Job :=
  { j with log := appendLog j.log line }

/-- The progress/speed/eta/size update when the Progress Extractor produced a
signal. -/
def progressUpdate (j : Job) (parsed : Option Progress) : Job :=
  match parsed with
  | some p => { j with progress := p.pct, speed := p.speed, eta := p.eta, size := p.size }
  | none => j

/-- The phase-heuristics block of `_run_job` (lines 212-223): the download
marker is tested on the raw line (case-sensitively), the keywords on the
lowercased line; a generic progress line moves the phase to `downloading`
only from `starting`/`queued`; merge and audio-extraction markers override
with progress forced to 99 and transient fields cleared. -/
def phaseProgress (line : String) (parsed : Option Progress) (j : Job) : Job :=
  let low := pyLower line
  let j1 :=
    if containsSub line "[download]" = true then
      if containsSub low "audio" = true then { j with phase := "audio" }
      else if containsSub low "video" = true then { j with phase := "video" }
      else if parsed.isSome = true ∧ (j.phase = "starting" ∨ j.phase = "queued") then
        { j with phase := "downloading" }
      else j
    else j
  let j2 :=
    if containsSub low "[merger]" = true then
      { j1 with phase := "merging", progress := 99, speed := "", eta := "" }
    else j1
  if containsSub low "[extractaudio]" = true then
    { j2 with phase := "converting", progress := 99, speed := "", eta := "" }
  else j2

/-- The destination capture of the per-line block: a destination announcement
replaces the remembered output path (stripped of whitespace and quotes). -/
def destUpdate (captured : Option String) (line : String) : Option String :=
  match reSearch destRE line with
  | some (d :: _) => some (pyStripChar '\x27' (pyStripChar '"' (pyStrip d)))
  | _ => captured

/-- One iteration of the output-streaming loop of `_run_job`: rstrip the raw
line, run the Progress Extractor (whose float conversion can raise, aborting
the iteration before the log append), then append to the log and apply the
progress, phase and destination updates under `jobs_lock`. -/
def processLine (j : Job) (captured : Option String) (raw : String) :
    Except String (Job × Option String) :=
  let line := rstripStr raw
  match parse_line line with
  | .error e => .error e
  | .ok parsed =>
      .ok (phaseProgress line parsed (progressUpdate (logUpdate j line) parsed),
           destUpdate captured line)

/-- The whole streaming loop: process lines in order; an exception stops the
loop and is reported (third component) to the surrounding try/except. -/
def processLines (j : Job) (captured : Option String) :
    List String → Job × Option String × Option String
  | [] => (j, captured, none)
  | raw :: rest =>
      match processLine j captured raw with
      | .error e => (j, captured, some e)
      | .ok (j', c') => processLines j' c' rest

/-- The dequeue-to-running update of `_run_job` (first `jobs_lock` block). -/
def startUpdate (j : Job) (t : Nat) : Job :=
  { j with status := .running, started := some t, phase := "starting" }

/-- The success update of `_run_job` (status done, progress 100, transient
fields cleared, resolved file and finish timestamp recorded). -/
def doneUpdate (j : Job) (file : Option String) (t : Nat) : Job :=
  { j with status := .done, progress := 100, speed := "", eta := "",
           phase := "done", file := file, finished := some t }

/-- A failure update (`status=error`, message, finish timestamp) as written
by the error paths of `_run_job` and by the worker's except block. -/
def errorUpdate (j : Job) (msg : String) (t : Nat) : Job :=
  { j with status := .error, error := some msg, finished := some t }

/-- The error-message heuristic for a nonzero exit: last non-blank log line,
stripped, else a generic fallback. -/
def errMsgFromLog (log : List String) : String :=
  match log.reverse.find? (fun l => pyStrip l != "") with
  | some l => pyStrip l
  | none => "yt-dlp error"

/-- Stable insertion into a list sorted by modification time, descending
(models `sorted(..., key=mtime, reverse=True)`). -/
def insertDesc (x : String × Nat) : List (String × Nat) → List (String × Nat)
  | [] => [x]
  | y :: ys => if x.2 ≤ y.2 then y :: insertDesc x ys else x :: y :: ys

/-- Sort directory entries by modification time, descending. -/
def sortMtimeDesc (l : List (String × Nat)) : List (String × Nat) :=
  l.foldr insertDesc []

/-- The file name after the last path separator. -/
def baseName (p : String) : String :=
  String.mk ((p.data.reverse.takeWhile (fun c => c != '/')).reverse)

/-- Index of the last dot of a name, if any. -/
def lastDotIdx (cs : List Char) : Option Nat :=
  match cs.reverse.findIdx? (fun c => c == '.') with
  | some k => some (cs.length - 1 - k)
  | none => none

/-- `pathlib.Path(p).suffix`: the final dot-suffix of the name, empty when the
name has no interior dot. -/
def pySuffix (p : String) : String :=
  let name := baseName p
  match lastDotIdx name.data with
  | some i =>
      if 0 < i ∧ i < name.data.length - 1 then String.mk (name.data.drop i) else ""
  | none => ""

/-- The known media extensions of the fallback scan. -/
def mediaExt (p : String) : Bool :=
  ([".mp4", ".mp3", ".webm", ".mkv", ".m4a"] : List String).contains (pySuffix p)

/-- Outcome of the subprocess launch: an exception while launching, or a run
producing the streamed output lines and a return code. -/
inductive SubprocResult where
  | launchFail (msg : String)
  | ran (lines : List String) (rc : Int)

/-- Environment of one job execution: the disk state at the validation load
(line 172) and at the reconciliation load (line 245), the subprocess outcome,
the filesystem visible to the fallback scan (`out_dir` entries with
modification times), the existence test for a captured output path, and
whether `save_data` succeeds. -/
structure RunEnv where
  d1 : DiskState
  sub : SubprocResult
  pathExists : String → Bool
  dirFiles : List (String × Nat)
  d2 : DiskState
  saveOk : Bool

/-- Effect on the durable catalog of one job execution. -/
inductive CatEffect where
  | noSave
  | saved (c : Catalog)
deriving Repr

/-- The output-file resolution on success: keep a truthy captured destination
that exists on disk; otherwise scan `out_dir` for names containing the video
id, newest first, and take the first with a known media extension; if the
scan finds nothing the captured value (possibly `None`) is kept. -/
def resolveOutput (captured : Option String) (env : RunEnv) (vid : String) :
    Option String :=
  let primaryOk :=
    match captured with
    | some s => s != "" && env.pathExists s
    | none => false
  if primaryOk = true then captured
  else
    let files := (sortMtimeDesc (env.dirFiles.filter (fun f => containsSub f.1 vid))).map (·.1)
    match files.find? mediaExt with
    | some f => some f
    | none => captured

/-- `_run_job` proper.  Returns the table, the catalog effect, and the
message of an exception escaping `_run_job` itself (only the validation-time
`load_data`, which sits outside the try block, and the impossible missing-key
access can escape; everything else is caught inside). -/
def runJobInner (t : Table) (jid : String) (env : RunEnv) (tS tF : Nat) :
    Table × CatEffect × Option String :=
  match lookupJob t jid with
  | none => (t, .noSave, some "KeyError")
  | some j0 =>
    let j1 := startUpdate j0 tS
    let t1 := updateQueuePositions (setJob t jid j1)
    match load_data env.d1 with
    | .error e => (t1, .noSave, some e)
    | .ok c1 =>
      match lookupPl c1.playlists j1.playlist_id with
      | none => (setJob t1 jid (errorUpdate j1 "Playlist not found" tF), .noSave, none)
      | some _ =>
        match env.sub with
        | .launchFail msg => (setJob t1 jid (errorUpdate j1 msg tF), .noSave, none)
        | .ran lines rc =>
          let pr := processLines j1 none lines
          let j2 := pr.1
          let t2 := setJob t1 jid j2
          match pr.2.2 with
          | some e => (setJob t2 jid (errorUpdate j2 e tF), .noSave, none)
          | none =>
            if rc = 0 then
              let file := resolveOutput pr.2.1 env j2.video_id
              let j3 := doneUpdate j2 file tF
              let t3 := setJob t2 jid j3
              match load_data env.d2 with
              | .error e => (setJob t3 jid (errorUpdate j3 e tF), .noSave, none)
              | .ok c2 =>
                match lookupPl c2.playlists j3.playlist_id with
                | none => (t3, .noSave, none)
                | some _ =>
                  if env.saveOk = true then
                    (t3, .saved (reconcileCatalog c2 j3.playlist_id j3.video_id
                                  file j3.quality j3.audio_only), none)
                  else (setJob t3 jid (errorUpdate j3 "save_data failed" tF), .noSave, none)
            else
              (setJob t2 jid (errorUpdate j2 (errMsgFromLog j2.log) tF), .noSave, none)

/-- The except block of `_worker`: if the job still exists, record the
exception message as a terminal error in that job's record only. -/
def workerCatch (t : Table) (jid msg : String) (tF : Nat) : Table :=
  match lookupJob t jid with
  | some j => setJob t jid (errorUpdate j msg tF)
  | none => t

/-- One iteration of `_worker`: run the job; an escaping exception is caught
and absorbed into the job's own record.  Total by construction — nothing
propagates out of the loop body. -/
def workerStep (t : Table) (jid : String) (env : RunEnv) (tS tF : Nat) :
    Table × CatEffect :=
  match runJobInner t jid env tS tF with
  | (t', eff, some e) => (workerCatch t' jid e tF, eff)
  | (t', eff, none) => (t', eff)

/-- One dequeued work item (job id plus its execution environment and
timestamps). -/
structure WorkItem where
  jid : String
  env : RunEnv
  tS : Nat
  tF : Nat

/-- The worker loop over a sequence of dequeued jobs: every item is processed;
a failure of one job never stops the loop. -/
def workerRun : Table → List WorkItem → Table
  | t, [] => t
  | t, w :: rest => workerRun (workerStep t w.jid w.env w.tS w.tF).1 rest

/-! ### Observable transitions of the job table

Each constructor is one `jobs_lock` critical section of the source, i.e. one
atomic, externally observable mutation of the job table: job creation
(`add_job`), the dequeue-to-running block, one iteration of the streaming
loop, the three terminal updates (success, failure, and the except block that
re-marks an already-`done` job as `error` when the reconciliation
`load_data`/`save_data` raises after the success update was published), and
bulk cleanup.  The status guards record which status the owning worker's job
has when the block runs. -/
inductive Step : Table → Table → Prop where
  | add : ∀ t jid plid vid title q ao, lookupJob t jid = none →
      Step t (addJob t jid plid vid title q ao)
  | start : ∀ t jid j tS, lookupJob t jid = some j → j.status = .queued →
      Step t (updateQueuePositions (setJob t jid (startUpdate j tS)))
  | line : ∀ t jid j c raw j' c', lookupJob t jid = some j → j.status = .running →
      processLine j c raw = .ok (j', c') → Step t (setJob t jid j')
  | finishDone : ∀ t jid j file tF, lookupJob t jid = some j → j.status = .running →
      Step t (setJob t jid (doneUpdate j file tF))
  | finishError : ∀ t jid j msg tF, lookupJob t jid = some j → j.status = .running →
      Step t (setJob t jid (errorUpdate j msg tF))
  | reconcileError : ∀ t jid j msg tF, lookupJob t jid = some j → j.status = .done →
      Step t (setJob t jid (errorUpdate j msg tF))
  | clear : ∀ t, Step t (clearJobs t)

/-- An execution trace: the current table together with the list of all
earlier tables, most recent first, starting from the empty registry. -/
inductive Trace : Table → List Table → Prop where
  | init : Trace [] []
  | step : ∀ {t ts t'}, Trace t ts → Step t t' → Trace t' (t :: ts)

/-- A table is reachable when some trace ends in it. -/
def Reach (t : Table) : Prop := ∃ ts, Trace t ts

/-! ### The claims under test, stated as propositions -/

/-- Status transitions admitted by the claim: `queued→running→{done,error}`
(with stuttering), done and error terminal. -/
def allowedClaim (a b : Status) : Prop :=
  a = b ∨ (a = .queued ∧ b = .running) ∨ (a = .running ∧ (b = .done ∨ b = .error))

/-- Status transitions the code actually takes: additionally `done→error`
when the success reconciliation raises after the done update was published. -/
def allowedAmended (a b : Status) : Prop :=
  allowedClaim a b ∨ (a = .done ∧ b = .error)

/-- C3 as claimed: every observable status change respects
`queued→running→{done,error}` with done/error terminal. -/
def ClaimC3 : Prop :=
  ∀ t t', Reach t → Step t t' → ∀ k j j',
    lookupJob t k = some j → lookupJob t' k = some j' →
    allowedClaim j.status j'.status

/-- C1's universally quantified part as claimed: a job observed `done` after
a worker iteration has a non-null resolved file. -/
def ClaimC1 : Prop :=
  ∀ t jid env tS tF j',
    lookupJob (workerStep t jid env tS tF).1 jid = some j' →
    j'.status = .done → j'.file ≠ none

/-- C2 as claimed: all three catalog-writing operations preserve the
`downloaded ⇔ file_path` invariant. -/
def ClaimC2 : Prop :=
  (∀ entries, ∀ v ∈ fetchVideos entries, VideoInv v) ∧
  (∀ c plid vids, CatalogInv c → CatalogInv (deleteFiles c plid vids)) ∧
  (∀ c plid vid file q ao, CatalogInv c →
    CatalogInv (reconcileCatalog c plid vid file q ao))

/-- Case-insensitive substring check, as the claim describes the phase
keyword tests. -/
def ciContains (hay needle : String) : Bool :=
  containsSub (pyLower hay) (pyLower needle)

/-- C7 as claimed: phase classification by case-insensitive keyword checks,
with a generic progress line always moving the phase to `downloading`. -/
def ClaimC7 : Prop :=
  ∀ (line : String) (parsed : Option Progress) (j : Job),
    (ciContains line "[download]" = true → ciContains line "audio" = true →
      ciContains line "[merger]" = false → ciContains line "[extractaudio]" = false →
      (phaseProgress line parsed j).phase = "audio") ∧
    (ciContains line "[download]" = true → ciContains line "audio" = false →
      ciContains line "video" = true →
      ciContains line "[merger]" = false → ciContains line "[extractaudio]" = false →
      (phaseProgress line parsed j).phase = "video") ∧
    (ciContains line "[download]" = true → parsed.isSome = true →
      ciContains line "audio" = false → ciContains line "video" = false →
      ciContains line "[merger]" = false → ciContains line "[extractaudio]" = false →
      (phaseProgress line parsed j).phase = "downloading") ∧
    (ciContains line "[merger]" = true → ciContains line "[extractaudio]" = false →
      (phaseProgress line parsed j).phase = "merging" ∧
      (phaseProgress line parsed j).progress = 99) ∧
    (ciContains line "[extractaudio]" = true →
      (phaseProgress line parsed j).phase = "converting" ∧
      (phaseProgress line parsed j).progress = 99) ∧
    (ciContains line "[download]" = false → ciContains line "[merger]" = false →
      ciContains line "[extractaudio]" = false →
      (phaseProgress line parsed j).phase = j.phase)

/-- C8 as claimed: an existing but malformed data file yields the empty
catalog with default settings. -/
def ClaimC8 : Prop := load_data .malformed = .ok emptyCatalog

/-- C10 as claimed: `parse_line` never raises. -/
def ClaimC10 : Prop := ∀ line, ∃ r, parse_line line = .ok r

/-! ### Concrete fixtures used by counterexamples and witnesses -/

/-- A catalog video not yet downloaded. -/
def v0 : Video :=
  { id := "v1", title := "Video One", uploader := "up", duration := some 10,
    thumbnail := "", url := "https://www.youtube.com/watch?v=v1",
    downloaded := false, file_path := none, quality := none, audio_only := none }

/-- A catalog playlist holding `v0`. -/
def pl0 : Playlist :=
  { id := "p1", url := "https://u", title := "P", videos := [v0],
    added := 0, synced := 0 }

/-- A one-playlist catalog. -/
def cat0 : Catalog := { playlists := [("p1", pl0)], settings := defaultSettings }

/-- Environment of a run that succeeds (return code 0) but emits no
destination line and finds no file in the output directory. -/
def env0 : RunEnv :=
  { d1 := .valid cat0, sub := .ran [] 0, pathExists := fun _ => false,
    dirFiles := [], d2 := .valid cat0, saveOk := true }

/-- Environment of a run that succeeds and captures a destination that
exists on disk. -/
def env1 : RunEnv :=
  { d1 := .valid cat0,
    sub := .ran ["[download] Destination: out [v1].mp4"] 0,
    pathExists := fun p => p == "out [v1].mp4",
    dirFiles := [("out [v1].mp4", 5)], d2 := .valid cat0, saveOk := true }

/-- A table holding the single fresh job `j1` for video `v1` of playlist
`p1`. -/
def t0 : Table := addJob [] "j1" "p1" "v1" "Video One" "best" false

/-- The output path `_run_job` resolves for a successful run that streamed
the given lines (destination capture with filesystem fallback). -/
def runResolved (j : Job) (env : RunEnv) (tS : Nat) (lines : List String) : Option String :=
  resolveOutput (processLines (startUpdate j tS) none lines).2.1 env j.video_id

/-- The job record published by the success update of `_run_job`. -/
def runFinalJob (j : Job) (env : RunEnv) (tS tF : Nat) (lines : List String) : Job :=
  doneUpdate (processLines (startUpdate j tS) none lines).1 (runResolved j env tS lines) tF

/-- Amended C1 post-state: after a worker iteration whose subprocess exited 0,
whose streaming raised no exception and whose reconciliation load and save
succeeded, the job is `done` carrying the resolved file (possibly null), and
the catalog effect is exactly the best-effort reconciliation: no write when
the playlist vanished, otherwise the matching video (when present) gets
`downloaded=true` and the job's resolved path. -/
def C1Post (t : Table) (jid : String) (env : RunEnv) (tS tF : Nat) (j : Job)
    (lines : List String) (c2 : Catalog) : Prop :=
  lookupJob (workerStep t jid env tS tF).1 jid = some (runFinalJob j env tS tF lines) ∧
  (runFinalJob j env tS tF lines).status = .done ∧
  (runFinalJob j env tS tF lines).file = runResolved j env tS lines ∧
  (lookupPl c2.playlists j.playlist_id = none →
      (workerStep t jid env tS tF).2 = .noSave) ∧
  ∀ pl2, lookupPl c2.playlists j.playlist_id = some pl2 →
    (workerStep t jid env tS tF).2 =
      .saved (reconcileCatalog c2 j.playlist_id j.video_id (runResolved j env tS lines)
        j.quality j.audio_only) ∧
    ∀ v, findVideo pl2.videos j.video_id = some v →
      findVideo (reconcileVideos j.video_id (runResolved j env tS lines)
          j.quality j.audio_only pl2.videos) j.video_id =
        some { v with downloaded := true, file_path := runResolved j env tS lines,
                      quality := some j.quality, audio_only := some j.audio_only }

/-- The queued record of the single job of `t0` (position recomputed to 1). -/
def jq : Job := { mkJob "j1" "p1" "v1" "Video One" "best" false with queue_pos := 1 }

/-- The same job after the dequeue-to-running update at time 5. -/
def jr5 : Job := startUpdate jq 5

/-- The same job after the success update (no resolved file) at time 6. -/
def jd6 : Job := doneUpdate jr5 none 6

/-- Table states of the straight-line trace used by counterexamples. -/
def tA : Table := [("j1", jq)]

/-- Table after the dequeue-to-running step. -/
def tB : Table := [("j1", jr5)]

/-- Table after the success update. -/
def tC : Table := [("j1", jd6)]

/-- Table after the reconciliation-failure except block re-marks the done job. -/
def tE : Table := [("j1", errorUpdate jd6 "disk failure" 7)]

/-! ### Basic lemmas about the job table -/

/-- A job with its queue position cleared; `uqpGo` changes nothing else. -/
def jobCore (j : Job) : Job := { j with queue_pos := 0 }

theorem startUpdate_status (j : Job) (t : Nat) : (startUpdate j t).status = .running := rfl

theorem doneUpdate_status (j : Job) (f : Option String) (t : Nat) :
    (doneUpdate j f t).status = .done := rfl

theorem errorUpdate_status (j : Job) (m : String) (t : Nat) :
    (errorUpdate j m t).status = .error := rfl

theorem mkJob_status (jid plid vid title q : String) (ao : Bool) :
    (mkJob jid plid vid title q ao).status = .queued := rfl

theorem jobCore_status (j : Job) : (jobCore j).status = j.status := rfl

theorem lookup_set_self {t : Table} {k : String} (j : Job)
    (h : (lookupJob t k).isSome = true) : lookupJob (setJob t k j) k = some j := by
  induction t with
  | nil => simp [lookupJob] at h
  | cons e rest ih =>
    by_cases hk : e.1 = k
    · simp [lookupJob, setJob, hk]
    · simp only [lookupJob, setJob, if_neg hk] at h ⊢
      exact ih h

theorem lookup_set_ne {t : Table} {k k' : String} {j : Job} (h : k' ≠ k) :
    lookupJob (setJob t k j) k' = lookupJob t k' := by
  induction t with
  | nil => simp [setJob]
  | cons e rest ih =>
    by_cases hk : e.1 = k
    · subst hk
      simp only [setJob, if_pos rfl, lookupJob]
      rw [if_neg (Ne.symm h), if_neg (Ne.symm h)]
    · simp only [setJob, if_neg hk, lookupJob]
      by_cases hk' : e.1 = k'
      · rw [if_pos hk', if_pos hk']
      · rw [if_neg hk', if_neg hk']
        exact ih

theorem lookup_append_some {t : Table} {k : String} {j : Job} (l : Table)
    (h : lookupJob t k = some j) : lookupJob (t ++ l) k = some j := by
  induction t with
  | nil => simp [lookupJob] at h
  | cons e rest ih =>
    by_cases hk : e.1 = k
    · simp only [lookupJob, if_pos hk] at h
      simp [lookupJob, hk, h]
    · simp only [lookupJob, if_neg hk] at h
      simpa [lookupJob, hk] using ih h

theorem lookup_append_ne {t : Table} {k : String} (x : String × Job) (h : k ≠ x.1) :
    lookupJob (t ++ [x]) k = lookupJob t k := by
  induction t with
  | nil => simp only [List.nil_append, lookupJob, if_neg (Ne.symm h)]
  | cons e rest ih =>
    by_cases hk : e.1 = k
    · simp [lookupJob, hk]
    · simpa [lookupJob, hk] using ih

theorem lookup_append_fresh {t : Table} {k : String} (j : Job)
    (h : lookupJob t k = none) : lookupJob (t ++ [(k, j)]) k = some j := by
  induction t with
  | nil => simp [lookupJob]
  | cons e rest ih =>
    by_cases hk : e.1 = k
    · simp [lookupJob, hk] at h
    · simp only [lookupJob, if_neg hk] at h
      simpa [lookupJob, hk] using ih h

theorem lookup_uqp_core (t : Table) (p : Nat) (k : String) :
    (lookupJob (uqpGo p t) k).map jobCore = (lookupJob t k).map jobCore := by
  induction t generalizing p with
  | nil => simp [uqpGo]
  | cons e rest ih =>
    by_cases hq : e.2.status = .queued
    · by_cases hk : e.1 = k
      · simp [uqpGo, if_pos hq, lookupJob, hk, jobCore]
      · simp only [uqpGo, if_pos hq, lookupJob, if_neg hk]
        exact ih (p + 1)
    · by_cases hk : e.1 = k
      · simp [uqpGo, if_neg hq, lookupJob, hk]
      · simp only [uqpGo, if_neg hq, lookupJob, if_neg hk]
        exact ih p

theorem lookup_uqp_status (t : Table) (p : Nat) (k : String) :
    (lookupJob (uqpGo p t) k).map Job.status = (lookupJob t k).map Job.status := by
  have h := lookup_uqp_core t p k
  cases hL : lookupJob (uqpGo p t) k with
  | none =>
    rw [hL] at h
    cases hR : lookupJob t k with
    | none => rfl
    | some b => rw [hR] at h; simp at h
  | some a =>
    rw [hL] at h
    cases hR : lookupJob t k with
    | none => rw [hR] at h; simp at h
    | some b =>
      rw [hR] at h
      simp only [Option.map_some'] at h ⊢
      have hs := congrArg Job.status (Option.some.inj h)
      simp only [jobCore_status] at hs
      rw [hs]

theorem lookup_uqp_isSome {t : Table} {k : String} (p : Nat)
    (h : (lookupJob t k).isSome = true) :
    (lookupJob (uqpGo p t) k).isSome = true := by
  have hs := lookup_uqp_status t p k
  cases hL : lookupJob (uqpGo p t) k with
  | some a => rfl
  | none =>
    rw [hL] at hs
    cases hR : lookupJob t k with
    | none => rw [hR] at h; simp at h
    | some b => rw [hR] at hs; simp at hs


theorem contigFrom_length (p n : Nat) : (contigFrom p n).length = n := by
  induction n generalizing p with
  | zero => rfl
  | succ m ih => simp [contigFrom, ih]

theorem qp_uqp (t : Table) (p : Nat) :
    queuedPositions (uqpGo p t) = contigFrom p (countQ t) := by
  induction t generalizing p with
  | nil => rfl
  | cons e rest ih =>
    by_cases hq : e.2.status = .queued
    · simp only [uqpGo, if_pos hq, queuedPositions, countQ]
      rw [ih (p + 1)]
      rfl
    · simp only [uqpGo, if_neg hq, queuedPositions, countQ]
      exact ih p

theorem uqp_contiguous (t : Table) : queuedContiguous (updateQueuePositions t) := by
  unfold queuedContiguous updateQueuePositions
  rw [qp_uqp, contigFrom_length]

theorem qp_set_nonqueued {t : Table} {k : String} {j0 j' : Job}
    (h : lookupJob t k = some j0) (h0 : j0.status ≠ .queued)
    (h1 : j'.status ≠ .queued) :
    queuedPositions (setJob t k j') = queuedPositions t := by
  induction t with
  | nil => rfl
  | cons e rest ih =>
    by_cases hk : e.1 = k
    · simp only [lookupJob, if_pos hk] at h
      have he : e.2 = j0 := Option.some.inj h
      simp only [setJob, if_pos hk, queuedPositions]
      rw [if_neg h1, if_neg (he ▸ h0)]
    · simp only [lookupJob, if_neg hk] at h
      simp only [setJob, if_neg hk, queuedPositions]
      by_cases hq : e.2.status = .queued
      · rw [if_pos hq, if_pos hq, ih h]
      · rw [if_neg hq, if_neg hq, ih h]

theorem qp_clear (t : Table) : queuedPositions (clearJobs t) = queuedPositions t := by
  induction t with
  | nil => rfl
  | cons e rest ih =>
    by_cases ht : e.2.status = .done ∨ e.2.status = .error
    · have hq : ¬ e.2.status = .queued := by
        rcases ht with ht | ht <;> rw [ht] <;> intro hc <;> cases hc
      simp only [clearJobs, if_pos ht, queuedPositions]
      rw [if_neg hq, ih]
    · simp only [clearJobs, if_neg ht, queuedPositions]
      by_cases hq : e.2.status = .queued
      · rw [if_pos hq, if_pos hq, ih]
      · rw [if_neg hq, if_neg hq, ih]

/-! ### Key uniqueness of the embedded dict -/

theorem lookup_clear_none {t : Table} {k : String} (h : lookupJob t k = none) :
    lookupJob (clearJobs t) k = none := by
  induction t with
  | nil => rfl
  | cons e rest ih =>
    by_cases hk : e.1 = k
    · simp [lookupJob, hk] at h
    · simp only [lookupJob, if_neg hk] at h
      by_cases ht : e.2.status = .done ∨ e.2.status = .error
      · simp only [clearJobs, if_pos ht]
        exact ih h
      · simp only [clearJobs, if_neg ht, lookupJob, if_neg hk]
        exact ih h

theorem lookup_clear_some {t : Table} {k : String} {j' : Job}
    (hnd : nodupKeys t) (h : lookupJob (clearJobs t) k = some j') :
    lookupJob t k = some j' := by
  induction t with
  | nil => simp [clearJobs, lookupJob] at h
  | cons e rest ih =>
    by_cases ht : e.2.status = .done ∨ e.2.status = .error
    · simp only [clearJobs, if_pos ht] at h
      by_cases hk : e.1 = k
      · exfalso
        have hn : lookupJob rest k = none := hk ▸ hnd.1
        rw [lookup_clear_none hn] at h
        cases h
      · simp only [lookupJob, if_neg hk]
        exact ih hnd.2 h
    · simp only [clearJobs, if_neg ht, lookupJob] at h ⊢
      by_cases hk : e.1 = k
      · rw [if_pos hk] at h ⊢; exact h
      · rw [if_neg hk] at h ⊢; exact ih hnd.2 h

theorem nd_set {t : Table} {k : String} {j : Job} (h : nodupKeys t) :
    nodupKeys (setJob t k j) := by
  induction t with
  | nil => trivial
  | cons e rest ih =>
    by_cases hk : e.1 = k
    · simp only [setJob, if_pos hk, nodupKeys]
      exact ⟨hk ▸ h.1, h.2⟩
    · simp only [setJob, if_neg hk, nodupKeys]
      exact ⟨by rw [lookup_set_ne hk]; exact h.1, ih h.2⟩

theorem nd_uqp (t : Table) (p : Nat) (h : nodupKeys t) : nodupKeys (uqpGo p t) := by
  induction t generalizing p with
  | nil => trivial
  | cons e rest ih =>
    have hnone : ∀ q, lookupJob (uqpGo q rest) e.1 = none := by
      intro q
      have hs := lookup_uqp_status rest q e.1
      rw [h.1] at hs
      cases hL : lookupJob (uqpGo q rest) e.1 with
      | none => rfl
      | some a => rw [hL] at hs; simp at hs
    by_cases hq : e.2.status = .queued
    · simp only [uqpGo, if_pos hq, nodupKeys]
      exact ⟨hnone (p + 1), ih (p + 1) h.2⟩
    · simp only [uqpGo, if_neg hq, nodupKeys]
      exact ⟨hnone p, ih p h.2⟩

theorem nd_append {t : Table} {k : String} (j : Job)
    (h : nodupKeys t) (hk : lookupJob t k = none) : nodupKeys (t ++ [(k, j)]) := by
  induction t with
  | nil => exact ⟨rfl, trivial⟩
  | cons e rest ih =>
    have hek : ¬ e.1 = k := by
      intro hc
      simp [lookupJob, hc] at hk
    simp only [lookupJob, if_neg hek] at hk
    show nodupKeys (e :: (rest ++ [(k, j)]))
    refine ⟨?_, ih h.2 hk⟩
    have hne : (e.1 : String) ≠ (k, j).1 := fun hc => hek hc
    rw [lookup_append_ne (k, j) hne]
    exact h.1

theorem nd_clear {t : Table} (h : nodupKeys t) : nodupKeys (clearJobs t) := by
  induction t with
  | nil => trivial
  | cons e rest ih =>
    by_cases ht : e.2.status = .done ∨ e.2.status = .error
    · simp only [clearJobs, if_pos ht]
      exact ih h.2
    · simp only [clearJobs, if_neg ht, nodupKeys]
      exact ⟨lookup_clear_none h.1, ih h.2⟩

/-! ### Field preservation through the per-line update -/

theorem phaseProgress_pres (line : String) (parsed : Option Progress) (j : Job) :
    (phaseProgress line parsed j).status = j.status ∧
    (phaseProgress line parsed j).playlist_id = j.playlist_id ∧
    (phaseProgress line parsed j).video_id = j.video_id ∧
    (phaseProgress line parsed j).quality = j.quality ∧
    (phaseProgress line parsed j).audio_only = j.audio_only := by
  simp only [phaseProgress]
  split_ifs <;> exact ⟨rfl, rfl, rfl, rfl, rfl⟩

theorem progressUpdate_pres (j : Job) (parsed : Option Progress) :
    (progressUpdate j parsed).status = j.status ∧
    (progressUpdate j parsed).playlist_id = j.playlist_id ∧
    (progressUpdate j parsed).video_id = j.video_id ∧
    (progressUpdate j parsed).quality = j.quality ∧
    (progressUpdate j parsed).audio_only = j.audio_only := by
  cases parsed <;> exact ⟨rfl, rfl, rfl, rfl, rfl⟩

theorem processLine_pres {j : Job} {c : Option String} {raw : String}
    {j' : Job} {c' : Option String} (h : processLine j c raw = .ok (j', c')) :
    j'.status = j.status ∧ j'.playlist_id = j.playlist_id ∧
    j'.video_id = j.video_id ∧ j'.quality = j.quality ∧
    j'.audio_only = j.audio_only := by
  simp only [processLine] at h
  cases hp : parse_line (rstripStr raw) with
  | error e => rw [hp] at h; cases h
  | ok parsed =>
    rw [hp] at h
    have hj : phaseProgress (rstripStr raw) parsed
        (progressUpdate (logUpdate j (rstripStr raw)) parsed) = j' := by
      have := (Except.ok.inj h)
      exact congrArg Prod.fst this
    rw [← hj]
    have h1 := phaseProgress_pres (rstripStr raw) parsed
      (progressUpdate (logUpdate j (rstripStr raw)) parsed)
    have h2 := progressUpdate_pres (logUpdate j (rstripStr raw)) parsed
    refine ⟨?_, ?_, ?_, ?_, ?_⟩
    · rw [h1.1, h2.1]; rfl
    · rw [h1.2.1, h2.2.1]; rfl
    · rw [h1.2.2.1, h2.2.2.1]; rfl
    · rw [h1.2.2.2.1, h2.2.2.2.1]; rfl
    · rw [h1.2.2.2.2, h2.2.2.2.2]; rfl

theorem processLines_pres (lines : List String) (j : Job) (c : Option String) :
    (processLines j c lines).1.status = j.status ∧
    (processLines j c lines).1.playlist_id = j.playlist_id ∧
    (processLines j c lines).1.video_id = j.video_id ∧
    (processLines j c lines).1.quality = j.quality ∧
    (processLines j c lines).1.audio_only = j.audio_only := by
  induction lines generalizing j c with
  | nil => exact ⟨rfl, rfl, rfl, rfl, rfl⟩
  | cons raw rest ih =>
    unfold processLines
    cases hp : processLine j c raw with
    | error e => exact ⟨rfl, rfl, rfl, rfl, rfl⟩
    | ok pr =>
      have hpr : processLine j c raw = .ok (pr.1, pr.2) := by rw [hp]
      have h1 := processLine_pres hpr
      have h2 := ih pr.1 pr.2
      refine ⟨?_, ?_, ?_, ?_, ?_⟩
      · rw [h2.1, h1.1]
      · rw [h2.2.1, h1.2.1]
      · rw [h2.2.2.1, h1.2.2.1]
      · rw [h2.2.2.2.1, h1.2.2.2.1]
      · rw [h2.2.2.2.2, h1.2.2.2.2]

/-! ### Status transfer through one observable step -/

theorem status_of_map_eq {o1 o2 : Option Job} {j1 j2 : Job}
    (h : o1.map Job.status = o2.map Job.status) (h1 : o1 = some j1)
    (h2 : o2 = some j2) : j1.status = j2.status := by
  rw [h1, h2] at h
  simp only [Option.map_some'] at h
  exact Option.some.inj h

theorem lookup_set_self_eq {t : Table} {jid : String} {jnew j' : Job}
    (hpresent : (lookupJob t jid).isSome = true)
    (hj' : lookupJob (setJob t jid jnew) jid = some j') : j' = jnew := by
  rw [lookup_set_self jnew hpresent] at hj'
  exact (Option.some.inj hj').symm

theorem lookup_set_other_ex {t : Table} {k jid : String} {jnew j' : Job}
    (hk : k ≠ jid) (hj' : lookupJob (setJob t jid jnew) k = some j') :
    lookupJob t k = some j' := by
  rw [lookup_set_ne hk] at hj'
  exact hj'

theorem lookup_uqp_set_self {t : Table} {jid : String} {jnew j' : Job}
    (hpresent : (lookupJob t jid).isSome = true)
    (hj' : lookupJob (uqpGo 1 (setJob t jid jnew)) jid = some j') :
    j'.status = jnew.status :=
  status_of_map_eq (lookup_uqp_status _ 1 jid) hj' (lookup_set_self jnew hpresent)

theorem lookup_uqp_set_other {t : Table} {k jid : String} {jnew : Job} {j' : Job}
    (hk : k ≠ jid)
    (hj' : lookupJob (uqpGo 1 (setJob t jid jnew)) k = some j') :
    ∃ j0, lookupJob t k = some j0 ∧ j0.status = j'.status := by
  have hset := lookup_set_ne (t := t) (j := jnew) hk
  have hst := lookup_uqp_status (setJob t jid jnew) 1 k
  rw [hj', hset] at hst
  cases hP : lookupJob t k with
  | none => rw [hP] at hst; simp at hst
  | some j0 =>
    rw [hP] at hst
    simp only [Option.map_some'] at hst
    exact ⟨j0, rfl, (Option.some.inj hst).symm⟩

theorem lookup_uqp_append_self {t : Table} {k : String} {jnew j' : Job}
    (hfresh : lookupJob t k = none)
    (hj' : lookupJob (uqpGo 1 (t ++ [(k, jnew)])) k = some j') :
    j'.status = jnew.status :=
  status_of_map_eq (lookup_uqp_status _ 1 k) hj' (lookup_append_fresh _ hfresh)

theorem lookup_uqp_append_other {t : Table} {k : String} {x : String × Job} {j' : Job}
    (hk : k ≠ x.1)
    (hj' : lookupJob (uqpGo 1 (t ++ [x])) k = some j') :
    ∃ j0, lookupJob t k = some j0 ∧ j0.status = j'.status := by
  have happ := lookup_append_ne (t := t) x hk
  have hst := lookup_uqp_status (t ++ [x]) 1 k
  rw [hj', happ] at hst
  cases hP : lookupJob t k with
  | none => rw [hP] at hst; simp at hst
  | some j0 =>
    rw [hP] at hst
    simp only [Option.map_some'] at hst
    exact ⟨j0, rfl, (Option.some.inj hst).symm⟩

/-! ### Reachability facts -/

theorem trace_nodup {t : Table} {ts : List Table} (h : Trace t ts) : nodupKeys t := by
  induction h with
  | init => trivial
  | step htr hs ih =>
    cases hs with
    | add jid plid vid title q ao hfresh =>
      exact nd_uqp _ 1 (nd_append _ ih hfresh)
    | start jid j0 tS hj0 hq => exact nd_uqp _ 1 (nd_set ih)
    | line jid j0 c raw j2 c2 hj0 hr hpl => exact nd_set ih
    | finishDone jid j0 file tF hj0 hr => exact nd_set ih
    | finishError jid j0 msg tF hj0 hr => exact nd_set ih
    | reconcileError jid j0 msg tF hj0 hd => exact nd_set ih
    | clear => exact nd_clear ih

theorem reach_contiguous {t : Table} (h : Reach t) : queuedContiguous t := by
  obtain ⟨ts, htr⟩ := h
  induction htr with
  | init => simp [queuedContiguous, queuedPositions, contigFrom]
  | step htr hs ih =>
    cases hs with
    | add jid plid vid title q ao hfresh => exact uqp_contiguous _
    | start jid j0 tS hj0 hq => exact uqp_contiguous _
    | line jid j0 c raw j2 c2 hj0 hr hpl =>
      unfold queuedContiguous
      rw [qp_set_nonqueued hj0 (by simp [hr]) (by
        have := (processLine_pres hpl).1
        simp [this, hr])]
      exact ih
    | finishDone jid j0 file tF hj0 hr =>
      unfold queuedContiguous
      rw [qp_set_nonqueued hj0 (by simp [hr]) (by simp [doneUpdate_status])]
      exact ih
    | finishError jid j0 msg tF hj0 hr =>
      unfold queuedContiguous
      rw [qp_set_nonqueued hj0 (by simp [hr]) (by simp [errorUpdate_status])]
      exact ih
    | reconcileError jid j0 msg tF hj0 hd =>
      unfold queuedContiguous
      rw [qp_set_nonqueued hj0 (by simp [hd]) (by simp [errorUpdate_status])]
      exact ih
    | clear =>
      unfold queuedContiguous
      rw [qp_clear]
      exact ih

theorem step_status {t t' : Table} (hnd : nodupKeys t) (hs : Step t t')
    {k : String} {j j' : Job} (hj : lookupJob t k = some j)
    (hj' : lookupJob t' k = some j') :
    allowedAmended j.status j'.status := by
  cases hs with
  | add jid plid vid title q ao hfresh =>
    simp only [addJob, updateQueuePositions] at hj'
    have hk : k ≠ jid := by
      intro hc; subst hc; rw [hfresh] at hj; cases hj
    obtain ⟨j0, hj0, hst⟩ := lookup_uqp_append_other hk hj'
    rw [hj0] at hj
    have : j = j0 := (Option.some.inj hj).symm
    exact Or.inl (Or.inl (by rw [this, hst]))
  | start jid j0 tS hj0 hq =>
    simp only [updateQueuePositions] at hj'
    by_cases hk : k = jid
    · subst hk
      have hjj : j = j0 := by rw [hj0] at hj; exact (Option.some.inj hj).symm
      have hst := lookup_uqp_set_self (by rw [hj0]; rfl) hj'
      rw [startUpdate_status] at hst
      exact Or.inl (Or.inr (Or.inl ⟨by rw [hjj]; exact hq, hst⟩))
    · obtain ⟨j0', hj0', hst⟩ := lookup_uqp_set_other hk hj'
      rw [hj0'] at hj
      have : j = j0' := (Option.some.inj hj).symm
      exact Or.inl (Or.inl (by rw [this, hst]))
  | line jid j0 c raw j2 c2 hj0 hr hpl =>
    by_cases hk : k = jid
    · subst hk
      have hjj : j = j0 := by rw [hj0] at hj; exact (Option.some.inj hj).symm
      have hj2 : j' = j2 := lookup_set_self_eq (by rw [hj0]; rfl) hj'
      have hps := (processLine_pres hpl).1
      exact Or.inl (Or.inl (by rw [hjj, hj2, hps]))
    · have := lookup_set_other_ex hk hj'
      rw [hj] at this
      exact Or.inl (Or.inl (by rw [Option.some.inj this]))
  | finishDone jid j0 file tF hj0 hr =>
    by_cases hk : k = jid
    · subst hk
      have hjj : j = j0 := by rw [hj0] at hj; exact (Option.some.inj hj).symm
      have hj2 : j' = doneUpdate j0 file tF := lookup_set_self_eq (by rw [hj0]; rfl) hj'
      refine Or.inl (Or.inr (Or.inr ⟨by rw [hjj]; exact hr, Or.inl ?_⟩))
      rw [hj2, doneUpdate_status]
    · have := lookup_set_other_ex hk hj'
      rw [hj] at this
      exact Or.inl (Or.inl (by rw [Option.some.inj this]))
  | finishError jid j0 msg tF hj0 hr =>
    by_cases hk : k = jid
    · subst hk
      have hjj : j = j0 := by rw [hj0] at hj; exact (Option.some.inj hj).symm
      have hj2 : j' = errorUpdate j0 msg tF := lookup_set_self_eq (by rw [hj0]; rfl) hj'
      refine Or.inl (Or.inr (Or.inr ⟨by rw [hjj]; exact hr, Or.inr ?_⟩))
      rw [hj2, errorUpdate_status]
    · have := lookup_set_other_ex hk hj'
      rw [hj] at this
      exact Or.inl (Or.inl (by rw [Option.some.inj this]))
  | reconcileError jid j0 msg tF hj0 hd =>
    by_cases hk : k = jid
    · subst hk
      have hjj : j = j0 := by rw [hj0] at hj; exact (Option.some.inj hj).symm
      have hj2 : j' = errorUpdate j0 msg tF := lookup_set_self_eq (by rw [hj0]; rfl) hj'
      refine Or.inr ⟨by rw [hjj]; exact hd, ?_⟩
      rw [hj2, errorUpdate_status]
    · have := lookup_set_other_ex hk hj'
      rw [hj] at this
      exact Or.inl (Or.inl (by rw [Option.some.inj this]))
  | clear =>
    have hcl := lookup_clear_some hnd hj'
    rw [hj] at hcl
    exact Or.inl (Or.inl (by rw [Option.some.inj hcl]))

theorem trace_done_error_ran {t : Table} {ts : List Table} (h : Trace t ts) :
    ∀ k j, lookupJob t k = some j → (j.status = .done ∨ j.status = .error) →
    ∃ t' ∈ ts, ∃ j', lookupJob t' k = some j' ∧ j'.status = .running := by
  induction h with
  | init => intro k j hj _; simp [lookupJob] at hj
  | @step tcur tscur tnext htr hs ih =>
    intro k j hj hde
    cases hs with
    | add jid plid vid title q ao hfresh =>
      simp only [addJob, updateQueuePositions] at hj
      by_cases hk : k = jid
      · subst hk
        have := lookup_uqp_append_self hfresh hj
        rw [mkJob_status] at this
        rcases hde with hd | hd <;> rw [this] at hd <;> cases hd
      · obtain ⟨j0, hj0, hst⟩ := lookup_uqp_append_other hk hj
        obtain ⟨t'', ht'', hw⟩ := ih k j0 hj0 (by rw [hst]; exact hde)
        exact ⟨t'', List.mem_cons_of_mem _ ht'', hw⟩
    | start jid j0 tS hj0 hq =>
      simp only [updateQueuePositions] at hj
      by_cases hk : k = jid
      · subst hk
        have := lookup_uqp_set_self (by rw [hj0]; rfl) hj
        rw [startUpdate_status] at this
        rcases hde with hd | hd <;> rw [this] at hd <;> cases hd
      · obtain ⟨j0', hj0', hst⟩ := lookup_uqp_set_other hk hj
        obtain ⟨t'', ht'', hw⟩ := ih k j0' hj0' (by rw [hst]; exact hde)
        exact ⟨t'', List.mem_cons_of_mem _ ht'', hw⟩
    | line jid j0 c raw j2 c2 hj0 hr hpl =>
      by_cases hk : k = jid
      · subst hk
        have hj2 : j = j2 := lookup_set_self_eq (by rw [hj0]; rfl) hj
        have hps := (processLine_pres hpl).1
        rcases hde with hd | hd <;> rw [hj2, hps, hr] at hd <;> cases hd
      · have := lookup_set_other_ex hk hj
        obtain ⟨t'', ht'', hw⟩ := ih k j this hde
        exact ⟨t'', List.mem_cons_of_mem _ ht'', hw⟩
    | finishDone jid j0 file tF hj0 hr =>
      by_cases hk : k = jid
      · subst hk
        exact ⟨tcur, List.mem_cons_self _ _, j0, hj0, hr⟩
      · have := lookup_set_other_ex hk hj
        obtain ⟨t'', ht'', hw⟩ := ih k j this hde
        exact ⟨t'', List.mem_cons_of_mem _ ht'', hw⟩
    | finishError jid j0 msg tF hj0 hr =>
      by_cases hk : k = jid
      · subst hk
        exact ⟨tcur, List.mem_cons_self _ _, j0, hj0, hr⟩
      · have := lookup_set_other_ex hk hj
        obtain ⟨t'', ht'', hw⟩ := ih k j this hde
        exact ⟨t'', List.mem_cons_of_mem _ ht'', hw⟩
    | reconcileError jid j0 msg tF hj0 hd =>
      by_cases hk : k = jid
      · subst hk
        obtain ⟨t'', ht'', hw⟩ := ih k j0 hj0 (Or.inl hd)
        exact ⟨t'', List.mem_cons_of_mem _ ht'', hw⟩
      · have := lookup_set_other_ex hk hj
        obtain ⟨t'', ht'', hw⟩ := ih k j this hde
        exact ⟨t'', List.mem_cons_of_mem _ ht'', hw⟩
    | clear =>
      have := lookup_clear_some (trace_nodup htr) hj
      obtain ⟨t'', ht'', hw⟩ := ih k j this hde
      exact ⟨t'', List.mem_cons_of_mem _ ht'', hw⟩

/-! ### The rolling log -/

theorem appendLog_eq_lastN (l : List String) (x : String) :
    appendLog l x = lastN 60 (l ++ [x]) := by
  unfold appendLog
  by_cases h : (l ++ [x]).length > 60
  · rw [if_pos h]
  · rw [if_neg h]
    push_neg at h
    unfold lastN
    rw [List.take_of_length_le (by simpa using h), List.reverse_reverse]

theorem take60_cons_take (x : String) (r : List String) :
    List.take 60 (x :: List.take 60 r) = List.take 60 (x :: r) := by
  show List.take (59 + 1) (x :: List.take 60 r) = List.take (59 + 1) (x :: r)
  rw [List.take_succ_cons, List.take_succ_cons, List.take_take]
  norm_num

theorem lastN_step (ys : List String) (x : String) :
    lastN 60 (lastN 60 ys ++ [x]) = lastN 60 (ys ++ [x]) := by
  unfold lastN
  rw [List.reverse_append, List.reverse_reverse, List.reverse_append]
  simp only [List.reverse_cons, List.reverse_nil, List.nil_append, List.singleton_append]
  rw [take60_cons_take]

theorem foldl_appendLog (xs : List String) : ∀ ys : List String,
    List.foldl appendLog (lastN 60 ys) xs = lastN 60 (ys ++ xs) := by
  induction xs with
  | nil => intro ys; simp
  | cons x rest ih =>
    intro ys
    rw [List.foldl_cons, appendLog_eq_lastN, lastN_step, ih (ys ++ [x])]
    simp

theorem lastN_length_le (n : Nat) (l : List String) : (lastN n l).length ≤ n := by
  unfold lastN
  rw [List.length_reverse, List.length_take]
  exact Nat.min_le_left _ _

/-! ### Catalog invariant preservation lemmas -/

theorem lookupPl_mem {ps : List (String × Playlist)} {k : String} {p : Playlist}
    (h : lookupPl ps k = some p) : (k, p) ∈ ps := by
  induction ps with
  | nil => simp [lookupPl] at h
  | cons e rest ih =>
    by_cases hk : e.1 = k
    · simp only [lookupPl, if_pos hk] at h
      have : e = (k, p) := by
        cases e
        simp only [Prod.mk.injEq]
        exact ⟨hk, Option.some.inj h⟩
      rw [← this]
      exact List.mem_cons_self _ _
    · simp only [lookupPl, if_neg hk] at h
      exact List.mem_cons_of_mem _ (ih h)

theorem mem_setPl {ps : List (String × Playlist)} {k : String} {p : Playlist}
    {e : String × Playlist} (h : e ∈ setPl ps k p) : e ∈ ps ∨ e = (k, p) := by
  induction ps with
  | nil => simp [setPl] at h
  | cons e0 rest ih =>
    by_cases hk : e0.1 = k
    · simp only [setPl, if_pos hk] at h
      rcases List.mem_cons.mp h with h | h
      · exact Or.inr h
      · exact Or.inl (List.mem_cons_of_mem _ h)
    · simp only [setPl, if_neg hk] at h
      rcases List.mem_cons.mp h with h | h
      · exact Or.inl (h ▸ List.mem_cons_self _ _)
      · rcases ih h with h | h
        · exact Or.inl (List.mem_cons_of_mem _ h)
        · exact Or.inr h

theorem fetch_inv (entries : List (Option Entry)) :
    ∀ v ∈ fetchVideos entries, VideoInv v := by
  intro v hv
  unfold fetchVideos at hv
  rw [List.mem_flatMap] at hv
  obtain ⟨o, _, hvo⟩ := hv
  cases o with
  | none => simp at hvo
  | some e =>
    simp only [List.mem_singleton] at hvo
    subst hvo
    simp [VideoInv, videoOfEntry]

theorem deleteFileVideo_inv (vids : List String) (v : Video) (h : VideoInv v) :
    VideoInv (deleteFileVideo vids v) := by
  unfold deleteFileVideo
  split_ifs with hc
  · simp [VideoInv]
  · exact h

theorem deleteFiles_inv (c : Catalog) (plid : String) (vids : List String)
    (h : CatalogInv c) : CatalogInv (deleteFiles c plid vids) := by
  unfold deleteFiles
  cases hp : lookupPl c.playlists plid with
  | none => exact h
  | some pl =>
    intro e he v hv
    rcases mem_setPl he with he | he
    · exact h e he v hv
    · subst he
      simp only at hv
      rw [List.mem_map] at hv
      obtain ⟨v0, hv0, hveq⟩ := hv
      have hmem := lookupPl_mem hp
      exact hveq ▸ deleteFileVideo_inv vids v0 (h (plid, pl) hmem v0 hv0)

theorem reconcileVideos_inv (vid : String) (file : Option String) (q : String)
    (ao : Bool) (hf : file ≠ none) :
    ∀ vs : List Video, (∀ v ∈ vs, VideoInv v) →
    ∀ v ∈ reconcileVideos vid file q ao vs, VideoInv v := by
  intro vs
  induction vs with
  | nil => intro _ v hv; simp [reconcileVideos] at hv
  | cons v0 rest ih =>
    intro hall v hv
    by_cases hid : v0.id = vid
    · simp only [reconcileVideos, if_pos hid] at hv
      rcases List.mem_cons.mp hv with h | h
      · subst h; simp [VideoInv, hf]
      · exact hall v (List.mem_cons_of_mem _ h)
    · simp only [reconcileVideos, if_neg hid] at hv
      rcases List.mem_cons.mp hv with h | h
      · subst h; exact hall _ (List.mem_cons_self _ _)
      · exact ih (fun v hv => hall v (List.mem_cons_of_mem _ hv)) v h

theorem reconcileCatalog_inv (c : Catalog) (plid vid : String) (file : Option String)
    (q : String) (ao : Bool) (h : CatalogInv c) (hf : file ≠ none) :
    CatalogInv (reconcileCatalog c plid vid file q ao) := by
  unfold reconcileCatalog
  cases hp : lookupPl c.playlists plid with
  | none => exact h
  | some pl =>
    intro e he v hv
    rcases mem_setPl he with he | he
    · exact h e he v hv
    · subst he
      simp only at hv
      have hmem := lookupPl_mem hp
      exact reconcileVideos_inv vid file q ao hf pl.videos
        (fun v hv => h (plid, pl) hmem v hv) v hv

theorem findVideo_reconcile {vs : List Video} {vid : String} {v : Video}
    (file : Option String) (q : String) (ao : Bool)
    (h : findVideo vs vid = some v) :
    findVideo (reconcileVideos vid file q ao vs) vid =
      some { v with downloaded := true, file_path := file,
                    quality := some q, audio_only := some ao } := by
  induction vs with
  | nil => simp [findVideo] at h
  | cons v0 rest ih =>
    by_cases hid : v0.id = vid
    · simp only [findVideo, if_pos hid] at h
      have : v0 = v := Option.some.inj h
      subst this
      simp only [reconcileVideos, if_pos hid, findVideo]
    · simp only [findVideo, if_neg hid] at h
      simp only [reconcileVideos, if_neg hid, findVideo]
      exact ih h

theorem startUpdate_playlist (j : Job) (t : Nat) :
    (startUpdate j t).playlist_id = j.playlist_id := rfl

theorem startUpdate_video (j : Job) (t : Nat) :
    (startUpdate j t).video_id = j.video_id := rfl

theorem startUpdate_quality (j : Job) (t : Nat) :
    (startUpdate j t).quality = j.quality := rfl

theorem startUpdate_ao (j : Job) (t : Nat) :
    (startUpdate j t).audio_only = j.audio_only := rfl

theorem doneUpdate_file (j : Job) (f : Option String) (t : Nat) :
    (doneUpdate j f t).file = f := rfl

theorem doneUpdate_playlist (j : Job) (f : Option String) (t : Nat) :
    (doneUpdate j f t).playlist_id = j.playlist_id := rfl

theorem doneUpdate_video (j : Job) (f : Option String) (t : Nat) :
    (doneUpdate j f t).video_id = j.video_id := rfl

theorem doneUpdate_quality (j : Job) (f : Option String) (t : Nat) :
    (doneUpdate j f t).quality = j.quality := rfl

theorem doneUpdate_ao (j : Job) (f : Option String) (t : Nat) :
    (doneUpdate j f t).audio_only = j.audio_only := rfl

theorem lookup_set_set_self {t : Table} {jid : String} {ja jb jc : Job}
    (hpresent : (lookupJob t jid).isSome = true) :
    lookupJob (setJob (setJob (updateQueuePositions (setJob t jid ja)) jid jb) jid jc)
      jid = some jc := by
  have h1 : lookupJob (setJob t jid ja) jid = some ja := lookup_set_self _ hpresent
  have h2 : (lookupJob (updateQueuePositions (setJob t jid ja)) jid).isSome = true :=
    lookup_uqp_isSome 1 (by rw [h1]; rfl)
  have h3 : lookupJob (setJob (updateQueuePositions (setJob t jid ja)) jid jb) jid
      = some jb := lookup_set_self _ h2
  exact lookup_set_self _ (by rw [h3]; rfl)

/-! ### Claim C1 -/

/-- C1, counterexample to the claim as stated: the resolved file path of a
`done` job can be null.  A run that exits 0 without announcing a destination
and whose output directory contains no file matching the video id leaves
`output_file = None`, yet the job is still marked `done`. -/
theorem C1_file_counterexample : ¬ ClaimC1 := by
  intro h
  exact h t0 "j1" env0 0 1 (doneUpdate (startUpdate jq 0) none 1)
    (by decide) (by decide) rfl

/-- C1 (amended): for a worker iteration whose subprocess exits 0, whose
streaming raises no exception and whose reconciliation load and save succeed,
the job ends `done` with `file` equal to the resolved output path — which may
be null when no destination was captured and the fallback scan finds nothing —
and the Catalog is reconciled best-effort: if the referenced Playlist still
exists, the matching Video (found by video id) gets `downloaded=true` and a
`file_path` equal to the job's resolved path; if the Playlist was deleted in
the interim, the job still reports `done` and no Video is updated (no save). -/
theorem C1_done_reconciliation
    (t : Table) (jid : String) (env : RunEnv) (tS tF : Nat) (j : Job)
    (lines : List String) (c1 c2 : Catalog)
    (hj : lookupJob t jid = some j)
    (hsub : env.sub = .ran lines 0)
    (hd1 : load_data env.d1 = .ok c1)
    (hpl1 : (lookupPl c1.playlists j.playlist_id).isSome = true)
    (hexc : (processLines (startUpdate j tS) none lines).2.2 = none)
    (hd2 : load_data env.d2 = .ok c2)
    (hsave : env.saveOk = true) :
    C1Post t jid env tS tF j lines c2 := by
  obtain ⟨pl1, hpl1e⟩ := Option.isSome_iff_exists.mp hpl1
  have hpres := processLines_pres lines (startUpdate j tS) none
  have hpresent : (lookupJob t jid).isSome = true := by rw [hj]; rfl
  unfold C1Post runFinalJob runResolved
  simp only [workerStep, runJobInner, hj, hd1, hsub, hd2, hsave,
    startUpdate_playlist, startUpdate_video, startUpdate_quality, startUpdate_ao,
    hpl1e, hexc, hpres.2.1, hpres.2.2.1, hpres.2.2.2.1, hpres.2.2.2.2,
    doneUpdate_playlist, doneUpdate_video, doneUpdate_quality, doneUpdate_ao,
    if_true]
  cases hp2 : lookupPl c2.playlists j.playlist_id with
  | none =>
    refine ⟨lookup_set_set_self hpresent, rfl, rfl, fun _ => rfl, ?_⟩
    intro pl2 hpl2
    cases hpl2
  | some pl2 =>
    refine ⟨lookup_set_set_self hpresent, rfl, rfl, ?_, ?_⟩
    · intro hnone; cases hnone
    · intro pl2' hpl2'
      refine ⟨rfl, ?_⟩
      intro v hv
      exact findVideo_reconcile _ _ _ hv

/-- C1 witness: the amended statement evaluated on a concrete successful run
whose destination line resolves to an existing file. -/
theorem C1_done_reconciliation_witness :
    C1Post t0 "j1" env1 0 1 jq ["[download] Destination: out [v1].mp4"] cat0 :=
  C1_done_reconciliation t0 "j1" env1 0 1 jq
    ["[download] Destination: out [v1].mp4"] cat0 cat0
    rfl rfl rfl rfl rfl rfl rfl

/-! ### Claim C2 -/

/-- C2, counterexample to the claim as stated: the job-success reconciliation
can write `downloaded=true` with `file_path=null` (when the job resolved no
output file), breaking the invariant on a catalog that satisfied it. -/
theorem C2_invariant_counterexample : ¬ ClaimC2 := by
  intro h
  have := h.2.2 cat0 "p1" "v1" none "best" false (by decide)
  exact absurd this (by decide)

/-- C2 (amended): the initial playlist fetch and the per-video file deletion
preserve `downloaded ⇔ file_path non-null` unconditionally; the job-success
reconciliation preserves it provided the job resolved a non-null output file
(with a null resolved file it writes `downloaded=true, file_path=null`). -/
theorem C2_invariant_preservation :
    (∀ entries, ∀ v ∈ fetchVideos entries, VideoInv v) ∧
    (∀ c plid vids, CatalogInv c → CatalogInv (deleteFiles c plid vids)) ∧
    (∀ c plid vid file q ao, CatalogInv c → file ≠ none →
      CatalogInv (reconcileCatalog c plid vid file q ao)) :=
  ⟨fetch_inv, deleteFiles_inv,
   fun c plid vid file q ao h hf => reconcileCatalog_inv c plid vid file q ao h hf⟩

/-- C2 witness: the amended reconciliation clause evaluated on the concrete
catalog with a non-null resolved file. -/
theorem C2_invariant_preservation_witness :
    CatalogInv (reconcileCatalog cat0 "p1" "v1" (some "out [v1].mp4") "best" false) :=
  C2_invariant_preservation.2.2 cat0 "p1" "v1" (some "out [v1].mp4") "best" false
    (by decide) (by decide)

/-! ### Concrete steps of the straight-line trace -/

theorem step_tA : Step [] tA := by
  have e : addJob [] "j1" "p1" "v1" "Video One" "best" false = tA := by decide
  exact e ▸ Step.add [] "j1" "p1" "v1" "Video One" "best" false rfl

theorem step_tB : Step tA tB := by
  have e : updateQueuePositions (setJob tA "j1" (startUpdate jq 5)) = tB := by decide
  exact e ▸ Step.start tA "j1" jq 5 (by decide) rfl

theorem step_tC : Step tB tC := by
  have e : setJob tB "j1" (doneUpdate jr5 none 6) = tC := by decide
  exact e ▸ Step.finishDone tB "j1" jr5 none 6 (by decide) rfl

theorem step_tE : Step tC tE := by
  have e : setJob tC "j1" (errorUpdate jd6 "disk failure" 7) = tE := by decide
  exact e ▸ Step.reconcileError tC "j1" jd6 "disk failure" 7 (by decide) rfl

theorem trace_tC : Trace tC [tB, tA, []] :=
  Trace.step (Trace.step (Trace.step Trace.init step_tA) step_tB) step_tC

/-! ### Claim C3 -/

/-- C3, counterexample to the claim as stated: `done` is not terminal.  After
the success update publishes `done`, a failing reconciliation load/save makes
the except block of `_run_job` re-mark the same job `error`, an observable
`done → error` transition. -/
theorem C3_status_counterexample : ¬ ClaimC3 := by
  intro h
  have hv := h tC tE ⟨[tB, tA, []], trace_tC⟩ step_tE "j1" jd6
    (errorUpdate jd6 "disk failure" 7) (by decide) (by decide)
  unfold allowedClaim at hv
  rcases hv with h1 | ⟨h1, _⟩ | ⟨h1, _⟩ <;> exact absurd h1 (by decide)

/-- C3 (amended): every observable status change moves along
`queued→running→{done,error}`, except that a job already published as `done`
can be re-marked `error` when the success reconciliation raises; and any job
observed `done` or `error` was observed `running` in an earlier state of the
trace. -/
theorem C3_status_machine :
    (∀ t t', Reach t → Step t t' → ∀ k j j', lookupJob t k = some j →
      lookupJob t' k = some j' → allowedAmended j.status j'.status) ∧
    (∀ t ts, Trace t ts → ∀ k j, lookupJob t k = some j →
      (j.status = .done ∨ j.status = .error) →
      ∃ t' ∈ ts, ∃ j', lookupJob t' k = some j' ∧ j'.status = .running) := by
  constructor
  · intro t t' hr hs k j j' hj hj'
    obtain ⟨ts, htr⟩ := hr
    exact step_status (trace_nodup htr) hs hj hj'
  · intro t ts htr
    exact trace_done_error_ran htr

/-- C3 witness: the amended statement evaluated on the concrete trace — the
dequeue step is an allowed transition, and the `done` job of `tC` was running
earlier. -/
theorem C3_status_machine_witness :
    allowedAmended jq.status jr5.status ∧
    ∃ t' ∈ [tB, tA, ([] : Table)], ∃ j', lookupJob t' "j1" = some j' ∧
      j'.status = .running :=
  ⟨C3_status_machine.1 tA tB ⟨[[]], Trace.step Trace.init step_tA⟩ step_tB "j1" jq jr5
      (by decide) (by decide),
   C3_status_machine.2 tC [tB, tA, []] trace_tC "j1" jd6 (by decide)
      (Or.inl (by decide))⟩

/-! ### Claim C4 -/

/-- C4: at every reachable state of the job table — in particular after every
status change (enqueue, dequeue-to-running, terminal updates, bulk cleanup) —
the queue positions of the still-queued jobs form the contiguous sequence
`1, 2, ..., k` in table order. -/
theorem C4_queue_contiguous : ∀ t, Reach t → queuedContiguous t :=
  fun _ h => reach_contiguous h

/-- C4 witness: contiguity evaluated on the concrete one-job table. -/
theorem C4_queue_contiguous_witness : queuedContiguous tA :=
  C4_queue_contiguous tA ⟨[[]], Trace.step Trace.init step_tA⟩

/-! ### Claim C5 -/

theorem phaseProgress_log (line : String) (parsed : Option Progress) (j : Job) :
    (phaseProgress line parsed j).log = j.log := by
  simp only [phaseProgress]
  split_ifs <;> rfl

theorem progressUpdate_log (j : Job) (parsed : Option Progress) :
    (progressUpdate j parsed).log = j.log := by
  cases parsed <;> rfl

/-- C5: the rolling log is bounded by 60 entries with FIFO eviction — after
any sequence of appends starting from the empty log of a fresh job, the log
equals the most recent (at most 60) appended lines in append order; and each
iteration of the streaming loop updates the log by exactly this bounded
append of the rstripped raw line. -/
theorem C5_rolling_log :
    (∀ xs : List String, List.foldl appendLog [] xs = lastN 60 xs ∧
      (List.foldl appendLog [] xs).length ≤ 60) ∧
    (∀ (j : Job) (c : Option String) (raw : String) (j' : Job) (c' : Option String),
      processLine j c raw = .ok (j', c') → j'.log = appendLog j.log (rstripStr raw)) := by
  constructor
  · intro xs
    have h2 : List.foldl appendLog [] xs = lastN 60 xs := by
      have := foldl_appendLog xs []
      simpa [lastN] using this
    exact ⟨h2, by rw [h2]; exact lastN_length_le 60 xs⟩
  · intro j c raw j' c' h
    simp only [processLine] at h
    cases hp : parse_line (rstripStr raw) with
    | error e => rw [hp] at h; cases h
    | ok parsed =>
      rw [hp] at h
      have hj := congrArg Prod.fst (Except.ok.inj h)
      simp only at hj
      rw [← hj, phaseProgress_log, progressUpdate_log]
      rfl

/-- C5 witness: one streaming iteration on a concrete line appends it to the
log through the bounded append. -/
theorem C5_rolling_log_witness :
    ({ jq with log := ["hello"] } : Job).log = appendLog jq.log (rstripStr "hello") :=
  C5_rolling_log.2 jq none "hello" { jq with log := ["hello"] } none rfl

/-! ### Claim C6 -/

/-- C6: the Progress Extractor yields
`pct=42.5, size="10.00MiB", speed="512.00KiB/s", eta="00:20"` on the spec's
example line, yields no signal on `"some unrelated line"`, and yields no
signal (rather than an error) on every line the progress pattern does not
match. -/
theorem C6_progress_extractor :
    parse_line "[download]  42.5% of ~10.00MiB at 512.00KiB/s ETA 00:20" =
      .ok (some { pct := (85 : Rat)/2, size := "10.00MiB",
                  speed := "512.00KiB/s", eta := "00:20" }) ∧
    parse_line "some unrelated line" = .ok none ∧
    ∀ line, reSearch progressRE line = none → parse_line line = .ok none := by
  refine ⟨?_, by rfl, ?_⟩
  · have hstep : parse_line "[download]  42.5% of ~10.00MiB at 512.00KiB/s ETA 00:20" =
        .ok (some ⟨(digitsVal ['4', '2'] : Rat) +
          (digitsVal ['5'] : Rat) / ((10 : Rat) ^ (1 : Nat)),
          "10.00MiB", "512.00KiB/s", "00:20"⟩) := by rfl
    rw [hstep]
    have h4 : '4'.toNat - 48 = 4 := rfl
    have h2 : '2'.toNat - 48 = 2 := rfl
    have h5 : '5'.toNat - 48 = 5 := rfl
    have hv : (digitsVal ['4', '2'] : Rat) +
        (digitsVal ['5'] : Rat) / ((10 : Rat) ^ (1 : Nat)) = (85 : Rat)/2 := by
      norm_num [digitsVal, h4, h2, h5]
    rw [hv]
  · intro line h
    simp only [parse_line, h]

/-- C6 witness: the no-match clause evaluated on a concrete line. -/
theorem C6_progress_extractor_witness : parse_line "hello world" = .ok none :=
  C6_progress_extractor.2.2 "hello world" rfl

/-! ### Claim C8 -/

/-- C8, counterexample to the claim as stated: `load_data` has no try/except —
an existing but malformed data file makes `json.load` raise instead of
yielding the empty catalog. -/
theorem C8_load_counterexample : ¬ ClaimC8 := by
  intro h
  unfold ClaimC8 load_data at h
  cases h

/-- C8 (amended): `load_data` returns the empty catalog with default settings
only when the data file does not exist; an existing malformed file raises
the JSON parse error, and a valid file round-trips. -/
theorem C8_load_fallback :
    load_data .missing = .ok emptyCatalog ∧
    load_data .malformed = .error "json.decoder.JSONDecodeError: Expecting value" ∧
    ∀ c, load_data (.valid c) = .ok c :=
  ⟨rfl, rfl, fun _ => rfl⟩

/-! ### Claim C9 -/

/-- C9: the worker's except block records the exception as a terminal error
with message and finish timestamp in that job's own record only; an exception
escaping `_run_job` is absorbed there (never propagates out of the loop
body); and the worker loop processes every subsequent item regardless. -/
theorem C9_worker_isolation :
    (∀ t jid msg tF j, lookupJob t jid = some j →
      lookupJob (workerCatch t jid msg tF) jid = some (errorUpdate j msg tF) ∧
      (errorUpdate j msg tF).status = .error ∧
      (errorUpdate j msg tF).error = some msg ∧
      (errorUpdate j msg tF).finished = some tF) ∧
    (∀ t jid msg tF k, k ≠ jid →
      lookupJob (workerCatch t jid msg tF) k = lookupJob t k) ∧
    (∀ t jid env tS tF t' eff e,
      runJobInner t jid env tS tF = (t', eff, some e) →
      workerStep t jid env tS tF = (workerCatch t' jid e tF, eff)) ∧
    (∀ (t : Table) (w : WorkItem) (rest : List WorkItem),
      workerRun t (w :: rest) = workerRun (workerStep t w.jid w.env w.tS w.tF).1 rest) := by
  refine ⟨?_, ?_, ?_, ?_⟩
  · intro t jid msg tF j hj
    refine ⟨?_, rfl, rfl, rfl⟩
    unfold workerCatch
    rw [hj]
    exact lookup_set_self _ (by rw [hj]; rfl)
  · intro t jid msg tF k hk
    unfold workerCatch
    cases hj : lookupJob t jid with
    | none => rfl
    | some j => exact lookup_set_ne hk
  · intro t jid env tS tF t' eff e h
    unfold workerStep
    rw [h]
  · intro t w rest
    rfl

/-- C9 witness: the except block evaluated on the concrete running job. -/
theorem C9_worker_isolation_witness :
    lookupJob (workerCatch tB "j1" "boom" 9) "j1" = some (errorUpdate jr5 "boom" 9) ∧
    (errorUpdate jr5 "boom" 9).status = .error ∧
    (errorUpdate jr5 "boom" 9).error = some "boom" ∧
    (errorUpdate jr5 "boom" 9).finished = some 9 :=
  C9_worker_isolation.1 tB "j1" "boom" 9 jr5 rfl

/-! ### Claim C10 -/

/-- C10, counterexample to the claim as stated: `parse_line` is not total —
on a line whose percentage capture is `"1.2.3"` the `float` conversion
raises `ValueError`. -/
theorem C10_parse_total_counterexample : ¬ ClaimC10 := by
  intro h
  obtain ⟨r, hr⟩ := h "[download] 1.2.3% of ~10.00MiB at 512.00KiB/s ETA 00:20"
  have he : parse_line "[download] 1.2.3% of ~10.00MiB at 512.00KiB/s ETA 00:20" =
      .error "could not convert string to float: 1.2.3" := rfl
  rw [he] at hr
  cases hr

/-- C10 (amended): `parse_line` either yields no signal, yields a structured
signal, or — exactly when the progress pattern matches with a percentage
capture that is not a valid float literal (no digit or more than one dot) —
raises the conversion error. -/
theorem C10_parse_totality (line : String) :
    parse_line line = .ok none ∨
    (∃ p, parse_line line = .ok (some p)) ∨
    (∃ g1 g2 g3 g4, reSearch progressRE line = some [g1, g2, g3, g4] ∧
      pyFloat g1 = none ∧
      parse_line line = .error ("could not convert string to float: " ++ g1)) := by
  simp only [parse_line]
  cases hs : reSearch progressRE line with
  | none => exact Or.inl rfl
  | some caps =>
    match caps with
    | [] => exact Or.inl rfl
    | [g1] => exact Or.inl rfl
    | [g1, g2] => exact Or.inl rfl
    | [g1, g2, g3] => exact Or.inl rfl
    | g1 :: g2 :: g3 :: g4 :: g5 :: rest => exact Or.inl rfl
    | [g1, g2, g3, g4] =>
      dsimp only
      cases hf : pyFloat g1 with
      | some v =>
        refine Or.inr (Or.inl ⟨⟨v, pyStrip g2, pyStrip g3, pyStrip g4⟩, ?_⟩)
        rfl
      | none =>
        refine Or.inr (Or.inr ⟨g1, g2, g3, g4, rfl, hf, ?_⟩)
        rfl

/-! ### Claim C7 -/

/-- C7, counterexample to the claim as stated: the download-marker check is
done on the raw line, case-sensitively — a line containing `[DOWNLOAD]` and
`audio` satisfies the claim's case-insensitive conditions yet leaves the
phase unchanged. -/
theorem C7_phase_counterexample : ¬ ClaimC7 := by
  intro h
  have := (h "[DOWNLOAD] audio" none jq).1 (by decide) (by decide) (by decide) (by decide)
  exact absurd this (by decide)

/-- C7 (amended): the phase heuristics test the download marker on the raw
line (case-sensitively) and the keywords on the lowercased line; `audio`
beats `video`; a generic progress line moves the phase to `downloading` only
from `starting`/`queued`; a merge marker forces `merging` with progress 99; an
audio-extraction marker forces `converting` with progress 99; and a line with
no recognized marker leaves the phase unchanged. -/
theorem C7_phase_heuristics (line : String) (parsed : Option Progress) (j : Job) :
    (containsSub line "[download]" = true → containsSub (pyLower line) "audio" = true →
      containsSub (pyLower line) "[merger]" = false →
      containsSub (pyLower line) "[extractaudio]" = false →
      (phaseProgress line parsed j).phase = "audio") ∧
    (containsSub line "[download]" = true → containsSub (pyLower line) "audio" = false →
      containsSub (pyLower line) "video" = true →
      containsSub (pyLower line) "[merger]" = false →
      containsSub (pyLower line) "[extractaudio]" = false →
      (phaseProgress line parsed j).phase = "video") ∧
    (containsSub line "[download]" = true → parsed.isSome = true →
      containsSub (pyLower line) "audio" = false →
      containsSub (pyLower line) "video" = false →
      (j.phase = "starting" ∨ j.phase = "queued") →
      containsSub (pyLower line) "[merger]" = false →
      containsSub (pyLower line) "[extractaudio]" = false →
      (phaseProgress line parsed j).phase = "downloading") ∧
    (containsSub (pyLower line) "[merger]" = true →
      containsSub (pyLower line) "[extractaudio]" = false →
      (phaseProgress line parsed j).phase = "merging" ∧
      (phaseProgress line parsed j).progress = 99) ∧
    (containsSub (pyLower line) "[extractaudio]" = true →
      (phaseProgress line parsed j).phase = "converting" ∧
      (phaseProgress line parsed j).progress = 99) ∧
    (containsSub line "[download]" = false →
      containsSub (pyLower line) "[merger]" = false →
      containsSub (pyLower line) "[extractaudio]" = false →
      (phaseProgress line parsed j).phase = j.phase) ∧
    (containsSub line "[download]" = true →
      containsSub (pyLower line) "audio" = false →
      containsSub (pyLower line) "video" = false →
      (parsed.isSome = false ∨ (j.phase ≠ "starting" ∧ j.phase ≠ "queued")) →
      containsSub (pyLower line) "[merger]" = false →
      containsSub (pyLower line) "[extractaudio]" = false →
      (phaseProgress line parsed j).phase = j.phase) := by
  refine ⟨?_, ?_, ?_, ?_, ?_, ?_, ?_⟩
  · intro h1 h2 h3 h4
    simp [phaseProgress, h1, h2, h3, h4]
  · intro h1 h2 h3 h4 h5
    simp [phaseProgress, h1, h2, h3, h4, h5]
  · intro h1 h2 h3 h4 h5 h6 h7
    simp [phaseProgress, h1, h2, h3, h4, h5, h6, h7]
  · intro h1 h2
    simp [phaseProgress, h1, h2]
  · intro h1
    simp [phaseProgress, h1]
  · intro h1 h2 h3
    simp [phaseProgress, h1, h2, h3]
  · intro h1 h2 h3 h4 h5 h6
    rcases h4 with h4 | ⟨h4a, h4b⟩
    · simp [phaseProgress, h1, h2, h3, h4, h5, h6]
    · simp [phaseProgress, h1, h2, h3, h4a, h4b, h5, h6]

/-- C7 witness: the merge-marker clause evaluated on a concrete merger line. -/
theorem C7_phase_heuristics_witness :
    (phaseProgress "[Merger] Merging formats into out.mp4" none jq).phase = "merging" ∧
    (phaseProgress "[Merger] Merging formats into out.mp4" none jq).progress = 99 :=
  (C7_phase_heuristics "[Merger] Merging formats into out.mp4" none jq).2.2.2.1 rfl rfl
